import Mathlib

/-!
# Geomfum documentation site: sidebar configuration and landing page

A shallow embedding of the two source files of the site scaffolding,
`sidebars.js` (the value assigned to `module.exports`) and
`src/pages/index.js` (the component `Home`), followed by the properties
stated about them.

JavaScript object and array literals are embedded as values of `JsVal`;
the markup produced by the JSX expression in `Home` is embedded as a value
of `Node`.
-/

namespace Geomfum

/-! ## JavaScript literal values -/

/-- JavaScript values that occur in the configuration: `undefined`, strings,
array literals, and object literals (properties in source order). -/
inductive JsVal where
  | undefined : JsVal
  | str (s : String) : JsVal
  | arr (xs : List JsVal) : JsVal
  | obj (fields : List (String × JsVal)) : JsVal
  deriving Repr

/-- Property read `o[k]` on the property list of an object literal. -/
def getProp (k : String) : List (String × JsVal) → Option JsVal
  | [] => none
  | (k', v) :: rest => if k' = k then some v else getProp k rest

/-! ## `sidebars.js` -/

/-- The value assigned to `module.exports` in `sidebars.js`. -/
def sidebars : JsVal :=
  .obj [
    ("tutorialSidebar", .arr [
      .str "intro",
      .str "getting-started",
      .obj [
        ("type", .str "category"),
        ("label", .str "Concepts"),
        ("items", .arr [.str "concepts/functional-maps"])],
      .obj [
        ("type", .str "category"),
        ("label", .str "Tutorials"),
        ("items", .arr [.str "tutorial/your-first-functional-map"])]])]

/-- The property `tutorialSidebar` of the exported object. -/
def tutorialSidebar : Option JsVal :=
  match sidebars with
  | .obj fields => getProp "tutorialSidebar" fields
  | _ => none

/-- The names of the sidebars defined by an exported object: its property
names, in source order. -/
def sidebarNames : JsVal → List String
  | .obj fields => fields.map Prod.fst
  | _ => []

/-- The sidebar sequences defined by an exported object: its property values,
in source order. -/
def sidebarSequences : JsVal → List JsVal
  | .obj fields => fields.map Prod.snd
  | _ => []

/-- The entries of an array literal (no entries for any other value). -/
def entriesOf : JsVal → List JsVal
  | .arr xs => xs
  | _ => []

/-- An entry is a bare string. -/
def isBareString : JsVal → Bool
  | .str _ => true
  | _ => false

/-- The property list carries `type: "category"`. -/
def hasCategoryType (fields : List (String × JsVal)) : Bool :=
  match getProp "type" fields with
  | some (.str s) => s == "category"
  | _ => false

/-- The property list carries a string `label`. -/
def hasStringLabel (fields : List (String × JsVal)) : Bool :=
  match getProp "label" fields with
  | some (.str _) => true
  | _ => false

/-- An entry is an object whose `type` is the string `category`. -/
def isCategory : JsVal → Bool
  | .obj fields => hasCategoryType fields
  | _ => false

/-- The `label` of an object entry, when it is a string. -/
def labelOf : JsVal → Option String
  | .obj fields =>
    match getProp "label" fields with
    | some (.str s) => some s
    | _ => none
  | _ => none

/-- The `items` of an object entry, when it is an array. -/
def itemsOf : JsVal → Option (List JsVal)
  | .obj fields =>
    match getProp "items" fields with
    | some (.arr xs) => some xs
    | _ => none
  | _ => none

mutual
/-- Flattening of one sidebar entry: a bare string contributes itself, a
category contributes the flattening of its `items`. -/
def flattenEntry : JsVal → List String
  | .str s => [s]
  | .obj fields => if hasCategoryType fields then flattenFields fields else []
  | _ => []
/-- Flattening of the `items` property read from a property list. -/
def flattenFields : List (String × JsVal) → List String
  | [] => []
  | (k, v) :: rest => if k = "items" then flattenItems v else flattenFields rest
/-- Flattening of an `items` value: the entries of an array, in order. -/
def flattenItems : JsVal → List String
  | .arr xs => flattenEntries xs
  | _ => []
/-- Flattening of a sequence of entries, in order. -/
def flattenEntries : List JsVal → List String
  | [] => []
  | x :: xs => flattenEntry x ++ flattenEntries xs
end

mutual
/-- Well-formedness of one entry of the sidebar configuration format: a bare
string, or an object with `type: "category"`, a string `label`, and an
`items` array of well-formed entries. -/
def wfEntry : JsVal → Bool
  | .str _ => true
  | .obj fields => hasCategoryType fields && hasStringLabel fields && wfItemsField fields
  | _ => false
/-- The `items` property read from a property list is present and is an array
of well-formed entries. -/
def wfItemsField : List (String × JsVal) → Bool
  | [] => false
  | (k, v) :: rest => if k = "items" then wfItems v else wfItemsField rest
/-- The value is an array of well-formed entries. -/
def wfItems : JsVal → Bool
  | .arr xs => wfEntries xs
  | _ => false
/-- Every entry of the sequence is well formed. -/
def wfEntries : List JsVal → Bool
  | [] => true
  | x :: xs => wfEntry x && wfEntries xs
end

/-! ## `src/pages/index.js` -/

/-- The type of a markup element: a host tag such as `main`, or a component
referenced by identifier such as the imported `Link`. -/
inductive ElemType where
  | host (tag : String) : ElemType
  | component (name : String) : ElemType
  deriving DecidableEq, Repr

/-- Markup trees produced by JSX expressions: text, or an element with its
attributes (in source order) and its children (in document order). -/
inductive Node where
  | text (s : String) : Node
  | elem (type : ElemType) (props : List (String × String)) (children : List Node) : Node
  deriving Repr

/-- The function `Home` of `src/pages/index.js`. It declares no parameter, so
the argument it is invoked with is not read. JSX text is taken after the
JSX whitespace rule (lines are trimmed and line breaks between elements
dropped). -/
def Home (_props : JsVal) : Node :=
  .elem (.host "main") [("className", "hero text-center")] [
    .elem (.host "h1") [] [.text "Geomfum"],
    .elem (.host "p") []
      [.text "A library for functional maps, geometry processing, and ML on shapes."],
    .elem (.host "div") [] [
      .elem (.component "Link")
        [("className", "button button--primary margin--sm"), ("to", "/docs/intro")]
        [.text "Get Started"],
      .elem (.component "Link")
        [("className", "button button--outline margin--sm"),
          ("to", "https://github.com/DiG-AIR/geomfum")]
        [.text "GitHub"]]]

/-- The children of a node, in document order. -/
def Node.childNodes : Node → List Node
  | .text _ => []
  | .elem _ _ cs => cs

/-- The value of an attribute of an element. -/
def Node.attr (name : String) : Node → Option String
  | .text _ => none
  | .elem _ ps _ => (ps.find? (fun kv => kv.1 == name)).map Prod.snd

/-- The node is an element with the given host tag. -/
def Node.hasTag (tag : String) : Node → Bool
  | .elem (.host t) _ _ => t == tag
  | _ => false

/-- The node is a heading element (`h1` to `h6`). -/
def Node.isHeading : Node → Bool
  | .elem (.host t) _ _ => ["h1", "h2", "h3", "h4", "h5", "h6"].contains t
  | _ => false

/-- The node is a paragraph element. -/
def Node.isParagraph (n : Node) : Bool := n.hasTag "p"

/-- The node is a `Link` element. -/
def Node.isLink : Node → Bool
  | .elem (.component c) _ _ => c == "Link"
  | _ => false

/-- The node is an element (not text). -/
def Node.isElement : Node → Bool
  | .elem _ _ _ => true
  | .text _ => false

mutual
/-- The proper descendants of a node, in document order. -/
def Node.descendants : Node → List Node
  | .text _ => []
  | .elem _ _ cs => descendantsOfList cs
/-- The nodes of a sequence of trees together with their descendants, in
document order. -/
def descendantsOfList : List Node → List Node
  | [] => []
  | c :: cs => c :: (c.descendants ++ descendantsOfList cs)
end

mutual
/-- The text content of a node: the concatenation of its text descendants. -/
def Node.textContent : Node → String
  | .text s => s
  | .elem _ _ cs => textContentOfList cs
/-- The concatenated text content of a sequence of nodes. -/
def textContentOfList : List Node → String
  | [] => ""
  | c :: cs => c.textContent ++ textContentOfList cs
end

mutual
/-- Structural comparison of two markup trees. -/
def Node.structEq : Node → Node → Bool
  | .text a, .text b => a == b
  | .elem t ps cs, .elem u qs ds => t == u && ps == qs && structEqList cs ds
  | _, _ => false
/-- Structural comparison of two sequences of markup trees. -/
def structEqList : List Node → List Node → Bool
  | [], [] => true
  | c :: cs, d :: ds => c.structEq d && structEqList cs ds
  | _, _ => false
end

/-- The string `s` begins with the string `pre`. -/
def beginsWith (pre s : String) : Bool := pre.data.isPrefixOf s.data

/-- The destination and the label of a link. -/
def linkInfo (n : Node) : Option String × String := (n.attr "to", n.textContent)

/-- The destination of a link is site-internal: it begins with `/`. -/
def isInternalLink (n : Node) : Bool :=
  match n.attr "to" with
  | some d => beginsWith "/" d
  | none => false

/-- The destination of a link is external: it begins with `https://`. -/
def isExternalLink (n : Node) : Bool :=
  match n.attr "to" with
  | some d => beginsWith "https://" d
  | none => false

/-- The ambient state in which a function of the module is invoked: the
variables (globals and module-level bindings) that a function body could read
or assign, by name. -/
abbrev Store := List (String × JsVal)

/-- One invocation `Home(props)` in state-passing form: the tree it returns and
the store it leaves behind. The body of `Home` (`src/pages/index.js`, lines 5
to 18) is a single `return` of a JSX literal; it has no expression container
that reads a variable and no assignment, so the tree is built without
consulting the store and the store is handed back as it was received. -/
def invokeHome (props : JsVal) (σ : Store) : Node × Store :=
  (Home props, σ)

/-- Two successive invocations of a renderer on the same input: the second one
starts in the store the first one left behind. The result is the pair of the
two trees and the final store. -/
def renderTwice (render : JsVal → Store → Node × Store) (props : JsVal) (σ : Store) :
    Node × Node × Store :=
  let first := render props σ
  let second := render props first.2
  (first.1, second.1, second.2)

/-! ## Properties -/

/-! ### Supporting lemmas -/

/-- Flattening a property list is flattening the value read as `items`. -/
theorem flattenFields_eq_getProp (fields : List (String × JsVal)) :
    flattenFields fields =
      match getProp "items" fields with
      | some v => flattenItems v
      | none => [] := by
  induction fields with
  | nil => simp [flattenFields, getProp]
  | cons kv rest ih =>
    obtain ⟨k, v⟩ := kv
    by_cases hk : k = "items"
    · simp [flattenFields, getProp, hk]
    · simp [flattenFields, getProp, hk, ih]

/-- The well-formedness check of a property list is the check of the value
read as `items`. -/
theorem wfItemsField_eq_getProp (fields : List (String × JsVal)) :
    wfItemsField fields =
      match getProp "items" fields with
      | some v => wfItems v
      | none => false := by
  induction fields with
  | nil => simp [wfItemsField, getProp]
  | cons kv rest ih =>
    obtain ⟨k, v⟩ := kv
    by_cases hk : k = "items"
    · simp [wfItemsField, getProp, hk]
    · simp [wfItemsField, getProp, hk, ih]

/-- A sequence passes `wfEntries` exactly when each of its entries passes
`wfEntry`. -/
theorem wfEntries_iff (xs : List JsVal) :
    wfEntries xs = true ↔ ∀ x ∈ xs, wfEntry x = true := by
  induction xs with
  | nil => simp [wfEntries]
  | cons x xs ih => simp [wfEntries, ih]

/-- An object entry is well formed exactly when its `type` is the string
`category`, its `label` is a string, and its `items` is an array of well-formed
entries. -/
theorem wfEntry_obj_iff (fields : List (String × JsVal)) :
    wfEntry (.obj fields) = true ↔
      getProp "type" fields = some (.str "category") ∧
      (∃ l, getProp "label" fields = some (.str l)) ∧
      ∃ xs, getProp "items" fields = some (.arr xs) ∧ ∀ x ∈ xs, wfEntry x = true := by
  rw [wfEntry, wfItemsField_eq_getProp]
  simp only [Bool.and_eq_true, hasCategoryType, hasStringLabel]
  constructor
  · rintro ⟨⟨h1, h2⟩, h3⟩
    refine ⟨?_, ?_, ?_⟩
    · cases ht : getProp "type" fields with
      | none => simp [ht] at h1
      | some v =>
        cases v with
        | str s => simp [ht] at h1; simp [h1]
        | _ => simp [ht] at h1
    · cases hl : getProp "label" fields with
      | none => simp [hl] at h2
      | some v =>
        cases v with
        | str s => exact ⟨s, rfl⟩
        | _ => simp [hl] at h2
    · cases hi : getProp "items" fields with
      | none => simp [hi] at h3
      | some v =>
        cases v with
        | arr xs =>
          simp only [hi, wfItems] at h3
          exact ⟨xs, rfl, (wfEntries_iff xs).1 h3⟩
        | _ => simp [hi, wfItems] at h3
  · rintro ⟨h1, ⟨l, h2⟩, xs, h3, h4⟩
    simp [h1, h2, h3, wfItems, (wfEntries_iff xs).2 h4]

mutual
/-- Structural comparison accepts only equal trees. -/
theorem structEq_eq : ∀ a b : Node, a.structEq b = true → a = b
  | .text a, .text b, h => by simpa [Node.structEq] using h
  | .elem t ps cs, .elem u qs ds, h => by
    simp only [Node.structEq, Bool.and_eq_true, beq_iff_eq] at h
    obtain ⟨⟨h1, h2⟩, h3⟩ := h
    rw [h1, h2, structEqList_eq cs ds h3]
  | .text _, .elem _ _ _, h => by simp [Node.structEq] at h
  | .elem _ _ _, .text _, h => by simp [Node.structEq] at h
/-- Structural comparison accepts only equal sequences of trees. -/
theorem structEqList_eq : ∀ cs ds : List Node, structEqList cs ds = true → cs = ds
  | [], [], _ => rfl
  | c :: cs, d :: ds, h => by
    simp only [structEqList, Bool.and_eq_true] at h
    rw [structEq_eq c d h.1, structEqList_eq cs ds h.2]
  | [], _ :: _, h => by simp [structEqList] at h
  | _ :: _, [], h => by simp [structEqList] at h
end

mutual
/-- Structural comparison accepts a tree against itself. -/
theorem structEq_refl : ∀ a : Node, a.structEq a = true
  | .text a => by simp [Node.structEq]
  | .elem t ps cs => by simp [Node.structEq, structEqList_refl cs]
/-- Structural comparison accepts a sequence of trees against itself. -/
theorem structEqList_refl : ∀ cs : List Node, structEqList cs cs = true
  | [] => by simp [structEqList]
  | c :: cs => by simp [structEqList, structEq_refl c, structEqList_refl cs]
end

/-- Structural comparison decides equality of markup trees. -/
theorem structEq_iff_eq (a b : Node) : a.structEq b = true ↔ a = b :=
  ⟨structEq_eq a b, fun h => h ▸ structEq_refl a⟩

/-! ### The sidebar configuration -/

/-- C1: flattening the `tutorialSidebar` sequence of `sidebars.js` yields the list
`intro`, `getting-started`, `concepts/functional-maps`,
`tutorial/your-first-functional-map`, in this order; each of the four occurs
exactly once and nothing else occurs. -/
theorem tutorialSidebar_flatten :
    ∃ seq, tutorialSidebar = some seq ∧
      flattenItems seq =
        ["intro", "getting-started", "concepts/functional-maps",
          "tutorial/your-first-functional-map"] ∧
      (∀ id ∈ ["intro", "getting-started", "concepts/functional-maps",
          "tutorial/your-first-functional-map"], (flattenItems seq).count id = 1) ∧
      (∀ id, id ∉ ["intro", "getting-started", "concepts/functional-maps",
          "tutorial/your-first-functional-map"] → (flattenItems seq).count id = 0) ∧
      (flattenItems seq).Nodup := by
  refine ⟨_, rfl, by decide, by decide, ?_, by decide⟩
  intro id hid
  exact List.count_eq_zero.2 hid

/-- C3: the exported object defines at least one sidebar, every sidebar sequence
it defines is an array, and every entry of it is well formed at every depth
(`wfEntry` descends into `items`, see `wfEntry_obj_iff`): a bare string, or an
object with `type` equal to `category`, a string `label` and an `items` array
of well-formed entries. -/
theorem sidebars_wellFormed :
    sidebarSequences sidebars ≠ [] ∧
      ∀ seq ∈ sidebarSequences sidebars,
        ∃ xs, seq = .arr xs ∧ ∀ e ∈ xs, wfEntry e = true := by
  refine ⟨by simp [sidebarSequences, sidebars], ?_⟩
  intro seq hseq
  simp only [sidebarSequences, sidebars, List.map_cons, List.map_nil,
    List.mem_singleton] at hseq
  subst hseq
  exact ⟨_, rfl, by decide⟩

/-- C4: the `tutorialSidebar` sequence has one level of nesting: some top-level
entry is a category, and the `items` of every top-level category is an array
of bare strings. -/
theorem tutorialSidebar_one_level :
    ∃ xs, tutorialSidebar = some (.arr xs) ∧
      (∃ e ∈ xs, isCategory e = true) ∧
      ∀ e ∈ xs, isCategory e = true →
        ∃ items, itemsOf e = some items ∧ ∀ i ∈ items, isBareString i = true := by
  refine ⟨_, rfl, ?_, ?_⟩
  · exact ⟨.obj [("type", .str "category"), ("label", .str "Concepts"),
      ("items", .arr [.str "concepts/functional-maps"])], by simp, by decide⟩
  · intro e he hc
    simp only [List.mem_cons, List.mem_singleton, List.not_mem_nil, or_false] at he
    rcases he with rfl | rfl | rfl | rfl
    · exact absurd hc (by decide)
    · exact absurd hc (by decide)
    · exact ⟨_, rfl, by decide⟩
    · exact ⟨_, rfl, by decide⟩

/-- C8: the exported object defines exactly one sidebar, `tutorialSidebar`; its
sequence has four entries, in order the string `intro`, the string
`getting-started`, a category labelled `Concepts` and a category labelled
`Tutorials`; the two labels differ and each category has exactly one item. -/
theorem sidebars_shape :
    sidebarNames sidebars = ["tutorialSidebar"] ∧
      ∃ c1 c2,
        tutorialSidebar = some (.arr [.str "intro", .str "getting-started", c1, c2]) ∧
        isCategory c1 = true ∧ labelOf c1 = some "Concepts" ∧
        isCategory c2 = true ∧ labelOf c2 = some "Tutorials" ∧
        labelOf c1 ≠ labelOf c2 ∧
        (itemsOf c1).map List.length = some 1 ∧
        (itemsOf c2).map List.length = some 1 := by
  refine ⟨rfl, _, _, rfl, by decide, by decide, by decide, by decide, by decide,
    by decide, by decide⟩

/-! ### The landing page -/

/-- C2: the tree returned by `Home` has a single root, the element `main`, which
is itself no heading, paragraph or link; among its descendants there is
exactly one heading, with text `Geomfum`, exactly one paragraph, and exactly
two `Link` elements: `/docs/intro` labelled `Get Started` and
`https://github.com/DiG-AIR/geomfum` labelled `GitHub`. -/
theorem Home_markup (p : JsVal) :
    (Home p).isElement = true ∧ (Home p).hasTag "main" = true ∧
      (Home p).isHeading = false ∧ (Home p).isParagraph = false ∧
      (Home p).isLink = false ∧
      ((Home p).descendants.filter Node.isHeading).map Node.textContent = ["Geomfum"] ∧
      ((Home p).descendants.filter Node.isParagraph).length = 1 ∧
      ((Home p).descendants.filter Node.isLink).map linkInfo =
        [(some "/docs/intro", "Get Started"),
         (some "https://github.com/DiG-AIR/geomfum", "GitHub")] := by
  have hp : Home p = Home .undefined := rfl
  rw [hp]
  refine ⟨by decide, by decide, by decide, by decide, by decide, by decide, by decide,
    by decide⟩

/-- C9: the children of the root returned by `Home` are, in document order, the
heading, the paragraph and one `div`; the children of that `div` are the two
`Link` elements, `Get Started` (to `/docs/intro`) before `GitHub` (to
`https://github.com/DiG-AIR/geomfum`); the first destination begins with `/`
and the second does not, the second begins with `https://` and the first does
not, so among all links of the tree exactly one is site-internal and exactly
one is external. -/
theorem Home_layout (p : JsVal) :
    ∃ h para d l1 l2,
      (Home p).childNodes = [h, para, d] ∧
      h.isHeading = true ∧ para.isParagraph = true ∧ d.hasTag "div" = true ∧
      d.childNodes = [l1, l2] ∧ l1.isLink = true ∧ l2.isLink = true ∧
      linkInfo l1 = (some "/docs/intro", "Get Started") ∧
      linkInfo l2 = (some "https://github.com/DiG-AIR/geomfum", "GitHub") ∧
      isInternalLink l1 = true ∧ isInternalLink l2 = false ∧
      isExternalLink l2 = true ∧ isExternalLink l1 = false ∧
      ((Home p).descendants.filter Node.isLink).filter isInternalLink = [l1] ∧
      ((Home p).descendants.filter Node.isLink).filter isExternalLink = [l2] := by
  have hp : Home p = Home .undefined := rfl
  rw [hp]
  refine ⟨_, _, _, _, _, rfl, by decide, by decide, by decide, rfl, by decide, by decide,
    by decide, by decide, by decide, by decide, by decide, by decide, ?_, ?_⟩
  · exact (structEqList_eq _ _ (by decide))
  · exact (structEqList_eq _ _ (by decide))

/-- C5: rendering the landing page is idempotent. Two successive invocations of
`Home` on the same input, the second starting in the state the first left
behind, return structurally identical markup trees and leave the state as it
was before the first; more generally the trees of any two invocations on the
same input are structurally identical whatever the store at each of them. This
holds in particular for the absent input `undefined`. -/
theorem Home_rerender :
    (∀ (p : JsVal) (σ : Store),
      (renderTwice invokeHome p σ).1.structEq (renderTwice invokeHome p σ).2.1 = true ∧
      (renderTwice invokeHome p σ).2.2 = σ) ∧
    (∀ (p : JsVal) (σ τ : Store),
      (invokeHome p σ).1.structEq (invokeHome p τ).1 = true) ∧
    (∀ σ τ : Store,
      (invokeHome .undefined σ).1.structEq (invokeHome .undefined τ).1 = true) := by
  refine ⟨fun p σ => ⟨?_, rfl⟩, fun p σ τ => ?_, fun σ τ => ?_⟩
  · simp only [renderTwice, invokeHome]
    exact structEq_refl (Home p)
  · simp only [invokeHome]
    exact structEq_refl (Home p)
  · simp only [invokeHome]
    exact structEq_refl (Home .undefined)

/-- C6: the result of `Home` does not depend on its argument: any two arguments
give the same tree, and there is one fixed tree that every invocation returns
(`Home` is total, it has no branch that fails). -/
theorem Home_constant :
    (∀ p1 p2 : JsVal, Home p1 = Home p2) ∧ ∃ t : Node, ∀ p : JsVal, Home p = t :=
  ⟨fun _ _ => rfl, ⟨Home .undefined, fun _ => rfl⟩⟩

/-! ### Examples -/

example : flattenItems (tutorialSidebar.getD .undefined) =
    ["intro", "getting-started", "concepts/functional-maps",
      "tutorial/your-first-functional-map"] := by decide

example : wfEntry (.obj [("type", .str "link"), ("label", .str "x"), ("items", .arr [])])
    = false := by decide

example : wfEntry (.obj [("type", .str "category"), ("label", .str "x"),
    ("items", .arr [.arr []])]) = false := by decide

example : (Home .undefined).structEq (.text "Geomfum") = false := by decide

/-- Re-rendering is not idempotent for every renderer: one that records each
invocation in the store and reads the record back returns different trees. -/
example :
    ∃ (render : JsVal → Store → Node × Store) (p : JsVal) (σ : Store),
      (renderTwice render p σ).1.structEq (renderTwice render p σ).2.1 = false :=
  ⟨fun _ σ => (if σ.isEmpty then .text "first" else .text "again", ("seen", .undefined) :: σ),
    .undefined, [], by decide⟩

end Geomfum
